import Mathlib

/-!
Verification of the keyword-expansion core of `autocomplete-keyword-engine.py`.

The program has two components:
* `google_autocomplete` (the SuggestionClient): one HTTP call to the Google
  suggest endpoint; on success it returns `r.json()[1]`, on any exception
  (transport error, timeout, non-2xx status via `raise_for_status`, invalid
  JSON, or an indexing failure on an unexpected shape) it returns `[]`.
* `expand_keyword` (the KeywordExpander): builds query variants from the fixed
  vocabularies `QUESTION_WORDS`, `PREPOSITIONS`, `COMPARISONS`, concatenates
  the client results into three buckets and deduplicates each bucket by
  lower-cased equality, keeping first occurrences.

The embedding models the HTTP layer as an abstract `FetchResult` and the
suggestion client used by `expand_keyword` as a state-threading function
`Client σ`, so that call counting (state = number of calls) and determinism
(output independence from state) are expressible.
-/

namespace AutoKeyword

/-- `QUESTION_WORDS` from the source (lines 50-52), in source order. -/
def QUESTION_WORDS : List String :=
  ["what", "why", "how", "where", "when", "who", "which", "can", "will", "are"]

/-- `PREPOSITIONS` from the source (lines 53-55), in source order. -/
def PREPOSITIONS : List String :=
  ["for", "with", "without", "to", "near", "in", "on", "about", "versus", "vs"]

/-- `COMPARISONS` from the source (lines 56-58), in source order. -/
def COMPARISONS : List String :=
  ["vs", "versus", "alternative", "alternatives", "compare", "comparison", "like"]

/-- A value `r.json()` can decode to: a string, an array, an object, a number
or null. The client indexes the decoded document at position 1 and hands the
element back without inspecting it further. -/
inductive Json where
  | str : String → Json
  | arr : List Json → Json
  | obj : List (String × Json) → Json
  | num : Int → Json
  | null : Json

/-- Python `doc[1]` on the decoded value: on a list it is the element at
index 1 (`IndexError`, modelled as `none`, when the list is shorter); on a
string it is the character at index 1 as a one-character string
(`"hello"[1] == "e"`; `IndexError` when the string is shorter); on a decoded
JSON object it raises `KeyError` (decoded object keys are strings, never the
int `1`); on a number or null it raises `TypeError`. -/
def pyIndex1 : Json → Option Json
  | Json.arr l => l.get? 1
  | Json.str s => (s.data.get? 1).map (fun c => Json.str ⟨[c]⟩)
  | Json.obj _ => none
  | Json.num _ => none
  | Json.null => none

/-- The outcome of `requests.get(url, params, timeout=4)` followed by
`r.raise_for_status()` and `r.json()`: a transport error, a timeout, a
response whose body is not valid JSON, or a decoded response with its HTTP
status code. -/
inductive FetchResult where
  | transportError : FetchResult
  | timeout : FetchResult
  | invalidJson : FetchResult
  | response : Nat → Json → FetchResult

/-- `google_autocomplete` (source lines 63-76) as a function of the network
outcome. The `try` body: `raise_for_status` raises exactly when the status
code is in 400..599, then `r.json()[1]` (`pyIndex1`) is returned verbatim —
whatever Python value it is, with no shape validation; every raise lands in
`except Exception: return []`, so only raising paths produce the empty list
(`Json.arr []`). -/
def google_autocomplete : FetchResult → Json
  | FetchResult.transportError => Json.arr []
  | FetchResult.timeout => Json.arr []
  | FetchResult.invalidJson => Json.arr []
  | FetchResult.response status body =>
    if 400 ≤ status ∧ status ≤ 599 then Json.arr []
    else
      match pyIndex1 body with
      | none => Json.arr []
      | some v => v

/-- The suggestion client as `expand_keyword` sees it: a fetch function that
may carry state `σ` across calls (the real one performs network traffic and
is memoised by `st.cache_data`; a stub is a pure function). `fetch q gl st`
returns the suggestion list for query `q` in region `gl` and the next state. -/
structure Client (σ : Type) where
  fetch : String → String → σ → List String × σ

/-- Run the client over a list of queries in order, concatenating the
results: the `+=` accumulation of the source's loops. -/
def fetchAll (c : Client σ) (gl : String) : List String → σ → List String × σ
  | [], st => ([], st)
  | q :: qs, st =>
    let p := c.fetch q gl st
    let r := fetchAll c gl qs p.2
    (p.1 ++ r.1, r.2)

/-- The queries of the Questions loop (source line 87): `f"{q} {seed}"` for
each question word in order. -/
def questionQueries (seed : String) : List String :=
  QUESTION_WORDS.map (fun q => q ++ " " ++ seed)

/-- The queries of the Prepositions loop (source lines 90-92):
`f"{seed} {p}"` then `f"{p} {seed}"` for each preposition in order. -/
def prepositionQueries (seed : String) : List String :=
  PREPOSITIONS.flatMap (fun p => [seed ++ " " ++ p, p ++ " " ++ seed])

/-- The queries of the Comparisons loop (source lines 95-97):
`f"{seed} {c}"` then `f"{c} {seed}"` for each comparison term in order. -/
def comparisonQueries (seed : String) : List String :=
  COMPARISONS.flatMap (fun c => [seed ++ " " ++ c, c ++ " " ++ seed])

/-- Python `s.lower()` as the dedup loop applies it: each character mapped to
its lower-case form (`Char.toLower`; the suggestions at stake are ASCII). -/
def lower (s : String) : String := ⟨s.data.map Char.toLower⟩

/-- The dedup loop of the source (lines 101-106) with its `seen` set of
lower-cased strings modelled as a list: keep `s` iff `s.lower()` was not seen,
and record `s.lower()` when keeping it. -/
def dedupeAux (seen : List String) : List String → List String
  | [] => []
  | s :: rest =>
    if lower s ∈ seen then dedupeAux seen rest
    else s :: dedupeAux (lower s :: seen) rest

/-- Deduplicate while preserving order (source lines 99-107), per bucket:
`seen = set(); unique = []; for s in bucket: ...`. -/
def dedupe (l : List String) : List String := dedupeAux [] l

/-- `expand_keyword(seed, gl)` (source lines 79-108) over a state-threading
client: build the three raw buckets by running the three query loops in
source order, then deduplicate each bucket. The result is the `dict` the
function returns, as an ordered association list of its three keys. -/
def expand_keyword (c : Client σ) (seed gl : String) (st : σ) :
    List (String × List String) × σ :=
  let q := fetchAll c gl (questionQueries seed) st
  let p := fetchAll c gl (prepositionQueries seed) q.2
  let m := fetchAll c gl (comparisonQueries seed) p.2
  ([("Questions", dedupe q.1), ("Prepositions", dedupe p.1),
    ("Comparisons", dedupe m.1)], m.2)

/-- A stateless client built from a pure stub `f : query → region →
suggestions`. -/
def pureClient (f : String → String → List String) : Client Unit :=
  ⟨fun q g st => (f q g, st)⟩

/-- `expand_keyword` with a pure, deterministic client stub. -/
def expand (f : String → String → List String) (seed gl : String) :
    List (String × List String) :=
  (expand_keyword (pureClient f) seed gl ()).1

/-- The raw (pre-dedup) Questions bucket: concatenation of the client results
for the question queries, in variant-generation order. -/
def rawQuestions (f : String → String → List String) (seed gl : String) : List String :=
  ((questionQueries seed).map (fun q => f q gl)).flatten

/-- The raw (pre-dedup) Prepositions bucket. -/
def rawPrepositions (f : String → String → List String) (seed gl : String) : List String :=
  ((prepositionQueries seed).map (fun q => f q gl)).flatten

/-- The raw (pre-dedup) Comparisons bucket. -/
def rawComparisons (f : String → String → List String) (seed gl : String) : List String :=
  ((comparisonQueries seed).map (fun q => f q gl)).flatten

/-- Python `buckets[k]`: look the key up in the returned dict. -/
def bucketOf (bs : List (String × List String)) (k : String) : List String :=
  match bs.find? (fun pr => pr.1 = k) with
  | some pr => pr.2
  | none => []

/-- A client that wraps a pure stub and counts its own invocations: the state
is the number of `fetch` calls made so far. -/
def countClient (f : String → String → List String) : Client Nat :=
  ⟨fun q g n => (f q g, n + 1)⟩

/-- Walk the characters of the text accumulating the current line (reversed in
`acc`): a line ends at `\n`, `\r\n` or `\r`; at the end of the text the last
line is kept only when it is non-empty, as Python `str.splitlines()` does. -/
def splitlinesGo : List Char → List Char → List (List Char)
  | [], acc => if acc.isEmpty then [] else [acc.reverse]
  | '\r' :: '\n' :: rest, acc => acc.reverse :: splitlinesGo rest []
  | '\n' :: rest, acc => acc.reverse :: splitlinesGo rest []
  | '\r' :: rest, acc => acc.reverse :: splitlinesGo rest []
  | c :: rest, acc => splitlinesGo rest (c :: acc)

/-- Python `seeds.splitlines()` (over the usual line boundaries). -/
def pySplitlines (s : String) : List String :=
  (splitlinesGo s.data []).map (fun cs => ⟨cs⟩)

/-- Python `s.strip()`: drop whitespace from both ends. -/
def pyStrip (s : String) : String :=
  ⟨(((s.data.dropWhile Char.isWhitespace).reverse).dropWhile Char.isWhitespace).reverse⟩

/-- The sidebar seed parsing (source lines 137-139):
`[s.strip() for s in seeds.splitlines() if s.strip()][:5]` — a Python string
is truthy iff non-empty, so the comprehension keeps the stripped lines that
are non-empty, capped at 5. -/
def seed_list (seeds : String) : List String :=
  (((pySplitlines seeds).map pyStrip).filter (fun s => s ≠ "")).take 5

/-- The per-seed expansion loop of the main block (source lines 150-151). -/
def runExpansion (c : Client σ) (gl : String) :
    List String → σ → List (String × List (String × List String)) × σ
  | [], st => ([], st)
  | seed :: rest, st =>
    let r := expand_keyword c seed gl st
    let rs := runExpansion c gl rest r.2
    ((seed, r.1) :: rs.1, rs.2)

/-- The main block behind the Generate button (source lines 136-151): parse
the seed list; when it is empty, show a validation error and stop (`none`)
without touching the client; otherwise expand every seed. -/
def mainLogic (c : Client σ) (seedsText gl : String) (st : σ) :
    Option (List (String × List (String × List String))) × σ :=
  let sl := seed_list seedsText
  if sl = [] then (none, st)
  else
    let r := runExpansion c gl sl st
    (some r.1, r.2)

/-- The spec's description of deduplication, written from its words: walk the
bucket keeping element `s` exactly when no element before it (the prefix
`pre` of already-walked elements) is equal to it under lower-casing — the
first occurrence, in variant-generation order, wins and keeps its position;
later duplicates are discarded. -/
def spec_keepFirst : List String → List String → List String
  | _, [] => []
  | pre, s :: rest =>
    if ∃ t ∈ pre, lower t = lower s then spec_keepFirst (pre ++ [s]) rest
    else s :: spec_keepFirst (pre ++ [s]) rest

/-- The spec-side dedup: keep exactly the first occurrence of each
case-insensitive equivalence class, in order. -/
def spec_dedup (l : List String) : List String := spec_keepFirst [] l

/-! ### Evaluation lemmas for the pure client -/

theorem fetchAll_pure (f : String → String → List String) (gl : String) :
    ∀ qs : List String,
      fetchAll (pureClient f) gl qs () = ((qs.map (fun q => f q gl)).flatten, ()) := by
  intro qs
  induction qs with
  | nil => rfl
  | cons q rest ih =>
    simp only [pureClient] at ih
    simp [fetchAll, pureClient, ih]

theorem expand_eq (f : String → String → List String) (seed gl : String) :
    expand f seed gl =
      [("Questions", dedupe (rawQuestions f seed gl)),
       ("Prepositions", dedupe (rawPrepositions f seed gl)),
       ("Comparisons", dedupe (rawComparisons f seed gl))] := by
  simp [expand, expand_keyword, fetchAll_pure, rawQuestions, rawPrepositions, rawComparisons]

/-! ### Properties of the dedup loop -/

theorem dedupeAux_sublist (l : List String) :
    ∀ seen : List String, List.Sublist (dedupeAux seen l) l := by
  induction l with
  | nil => intro seen; simp [dedupeAux]
  | cons s rest ih =>
    intro seen
    by_cases h : lower s ∈ seen
    · simp only [dedupeAux, if_pos h]
      exact (ih seen).trans (List.sublist_cons_self s rest)
    · simp only [dedupeAux, if_neg h]
      exact (ih (lower s :: seen)).cons₂ s

theorem lower_notMem_of_mem_dedupeAux {s : String} :
    ∀ l seen : List String, s ∈ dedupeAux seen l → lower s ∉ seen := by
  intro l
  induction l with
  | nil => intro seen h; simp [dedupeAux] at h
  | cons t rest ih =>
    intro seen h
    by_cases ht : lower t ∈ seen
    · rw [dedupeAux, if_pos ht] at h
      exact ih seen h
    · rw [dedupeAux, if_neg ht] at h
      rcases List.mem_cons.mp h with he | hm
      · rw [he]; exact ht
      · have hs := ih _ hm
        intro hmem
        exact hs (List.mem_cons_of_mem _ hmem)

theorem dedupeAux_pairwise :
    ∀ l seen : List String,
      (dedupeAux seen l).Pairwise (fun a b => lower a ≠ lower b) := by
  intro l
  induction l with
  | nil => intro seen; simp [dedupeAux]
  | cons t rest ih =>
    intro seen
    by_cases ht : lower t ∈ seen
    · rw [dedupeAux, if_pos ht]; exact ih seen
    · rw [dedupeAux, if_neg ht]
      refine List.Pairwise.cons ?_ (ih _)
      intro b hb heq
      exact lower_notMem_of_mem_dedupeAux rest _ hb (heq ▸ List.mem_cons_self _ _)

theorem exists_mem_dedupeAux {s : String} :
    ∀ l seen : List String, s ∈ l → lower s ∉ seen →
      ∃ t ∈ dedupeAux seen l, lower t = lower s := by
  intro l
  induction l with
  | nil => intro seen h; simp at h
  | cons u rest ih =>
    intro seen hmem hseen
    by_cases hu : lower u ∈ seen
    · rw [dedupeAux, if_pos hu]
      rcases List.mem_cons.mp hmem with he | hm
      · exact absurd (he ▸ hseen) (fun hn => hn hu)
      · exact ih seen hm hseen
    · rw [dedupeAux, if_neg hu]
      by_cases hl : lower s = lower u
      · exact ⟨u, List.mem_cons_self _ _, hl.symm⟩
      · rcases List.mem_cons.mp hmem with he | hm
        · exact absurd (congrArg lower he) hl
        · obtain ⟨t, htm, hte⟩ := ih (lower u :: seen) hm (by
            intro hx
            rcases List.mem_cons.mp hx with h1 | h2
            · exact hl h1
            · exact hseen h2)
          exact ⟨t, List.mem_cons_of_mem _ htm, hte⟩

theorem countP_eq_one_of_pairwise :
    ∀ l : List String, l.Pairwise (fun a b => lower a ≠ lower b) →
      ∀ t ∈ l, l.countP (fun x => lower x == lower t) = 1 := by
  intro l
  induction l with
  | nil => intro _ t ht; simp at ht
  | cons a rest ih =>
    intro hp t ht
    rw [List.pairwise_cons] at hp
    rw [List.countP_cons]
    rcases List.mem_cons.mp ht with he | hm
    · have h0 : rest.countP (fun x => lower x == lower t) = 0 := by
        rw [List.countP_eq_zero]
        intro x hx hbx
        exact hp.1 x hx (he ▸ (beq_iff_eq.mp hbx).symm)
      rw [h0, he]
      simp
    · have h1 := ih hp.2 t hm
      have hne : (lower a == lower t) = false := by
        rw [beq_eq_false_iff_ne]
        exact hp.1 t hm
      rw [h1, hne]
      simp

theorem dedupeAux_eq_spec_keepFirst :
    ∀ l seen pre : List String,
      (∀ x : String, lower x ∈ seen ↔ ∃ t ∈ pre, lower t = lower x) →
      dedupeAux seen l = spec_keepFirst pre l := by
  intro l
  induction l with
  | nil => intro seen pre hinv; simp [dedupeAux, spec_keepFirst]
  | cons s rest ih =>
    intro seen pre hinv
    by_cases h : lower s ∈ seen
    · rw [dedupeAux, if_pos h, spec_keepFirst, if_pos ((hinv s).mp h)]
      apply ih
      intro x
      constructor
      · intro hx
        obtain ⟨t, htp, hte⟩ := (hinv x).mp hx
        exact ⟨t, List.mem_append_left _ htp, hte⟩
      · rintro ⟨t, htp, hte⟩
        rcases List.mem_append.mp htp with h1 | h2
        · exact (hinv x).mpr ⟨t, h1, hte⟩
        · have hts : t = s := by simpa using h2
          rw [hts] at hte
          rw [← hte]
          exact h
    · have hs : ¬ ∃ t ∈ pre, lower t = lower s := fun hx => h ((hinv s).mpr hx)
      rw [dedupeAux, if_neg h, spec_keepFirst, if_neg hs]
      congr 1
      apply ih
      intro x
      constructor
      · intro hx
        rcases List.mem_cons.mp hx with h1 | h2
        · exact ⟨s, List.mem_append_right _ (by simp), h1.symm⟩
        · obtain ⟨t, htp, hte⟩ := (hinv x).mp h2
          exact ⟨t, List.mem_append_left _ htp, hte⟩
      · rintro ⟨t, htp, hte⟩
        rcases List.mem_append.mp htp with h1 | h2
        · exact List.mem_cons_of_mem _ ((hinv x).mpr ⟨t, h1, hte⟩)
        · have hts : t = s := by simpa using h2
          rw [hts] at hte
          exact List.mem_cons.mpr (Or.inl hte.symm)

theorem dedupe_eq_spec_dedup (l : List String) : dedupe l = spec_dedup l :=
  dedupeAux_eq_spec_keepFirst l [] [] (by intro x; simp)

/-! ### Call counting and state-independence -/

theorem fetchAll_countClient (f : String → String → List String) (gl : String) :
    ∀ (qs : List String) (n : Nat),
      (fetchAll (countClient f) gl qs n).2 = n + qs.length := by
  intro qs
  induction qs with
  | nil => intro n; simp [fetchAll]
  | cons q rest ih =>
    intro n
    have := ih (n + 1)
    simp only [fetchAll, countClient] at this ⊢
    rw [this]
    simp only [List.length_cons]
    omega

theorem expand_keyword_countClient (f : String → String → List String)
    (seed gl : String) (n : Nat) :
    (expand_keyword (countClient f) seed gl n).2 = n + 44 := by
  simp only [expand_keyword, fetchAll_countClient]
  have h1 : (questionQueries seed).length = 10 := rfl
  have h2 : (prepositionQueries seed).length = 20 := rfl
  have h3 : (comparisonQueries seed).length = 14 := rfl
  rw [h1, h2, h3]

theorem fetchAll_fst_state_independent (c : Client σ) (gl : String)
    (h : ∀ (q g : String) (s1 s2 : σ), (c.fetch q g s1).1 = (c.fetch q g s2).1) :
    ∀ (qs : List String) (s1 s2 : σ),
      (fetchAll c gl qs s1).1 = (fetchAll c gl qs s2).1 := by
  intro qs
  induction qs with
  | nil => intro s1 s2; rfl
  | cons q rest ih =>
    intro s1 s2
    simp only [fetchAll]
    rw [h q gl s1 s2, ih (c.fetch q gl s1).2 (c.fetch q gl s2).2]

/-! ### Bucket access -/

theorem bucketOf_expand_questions (f : String → String → List String) (seed gl : String) :
    bucketOf (expand f seed gl) "Questions" = dedupe (rawQuestions f seed gl) := by
  rw [expand_eq]; rfl

theorem bucketOf_expand_prepositions (f : String → String → List String) (seed gl : String) :
    bucketOf (expand f seed gl) "Prepositions" = dedupe (rawPrepositions f seed gl) := by
  rw [expand_eq]; rfl

theorem bucketOf_expand_comparisons (f : String → String → List String) (seed gl : String) :
    bucketOf (expand f seed gl) "Comparisons" = dedupe (rawComparisons f seed gl) := by
  rw [expand_eq]; rfl

theorem exists_lower_mem_dedupe {s : String} {l : List String} (hs : s ∈ l) :
    ∃ t ∈ dedupe l, lower t = lower s :=
  exists_mem_dedupeAux l [] hs (by simp)

theorem mem_raw_of_mem_query {f : String → String → List String} {gl q s : String}
    {qs : List String} (hq : q ∈ qs) (hs : s ∈ f q gl) :
    s ∈ (qs.map (fun x => f x gl)).flatten :=
  List.mem_flatten.mpr ⟨f q gl, List.mem_map_of_mem _ hq, hs⟩

/-! ### The claims -/

/-- C1: for every client stub, seed and region, each of the three buckets
`expand_keyword` returns is exactly the first-occurrence case-insensitive
dedup of that bucket's raw suggestion sequence (`spec_dedup`, written from
the spec's words: the first occurrence in variant-generation order is kept at
its position, later case-insensitive duplicates are discarded, relative order
of first occurrences is preserved), and within each bucket no two elements
are equal under lower-cased comparison. -/
theorem expand_buckets_dedup_first_occurrence
    (f : String → String → List String) (seed gl : String) :
    expand f seed gl =
      [("Questions", spec_dedup (rawQuestions f seed gl)),
       ("Prepositions", spec_dedup (rawPrepositions f seed gl)),
       ("Comparisons", spec_dedup (rawComparisons f seed gl))] ∧
    ∀ pr ∈ expand f seed gl, pr.2.Pairwise (fun a b => lower a ≠ lower b) := by
  constructor
  · rw [expand_eq, dedupe_eq_spec_dedup, dedupe_eq_spec_dedup, dedupe_eq_spec_dedup]
  · intro pr hpr
    rw [expand_eq] at hpr
    simp only [List.mem_cons, List.not_mem_nil, or_false] at hpr
    rcases hpr with h | h | h <;> rw [h] <;> exact dedupeAux_pairwise _ _

/-- C2: `expand_keyword` returns exactly the three keys Questions,
Prepositions, Comparisons, in that order, and each bucket is built only from
its own variant queries: the 10 `"{q} {seed}"` question queries in vocabulary
order, the 20 `"{seed} {p}"` / `"{p} {seed}"` preposition queries, and the 14
`"{seed} {c}"` / `"{c} {seed}"` comparison queries. -/
theorem expand_variant_coverage (f : String → String → List String) (seed gl : String) :
    (expand f seed gl).map Prod.fst = ["Questions", "Prepositions", "Comparisons"] ∧
    expand f seed gl =
      [("Questions",
        dedupe ((["what", "why", "how", "where", "when", "who", "which", "can", "will",
          "are"].map (fun q => f (q ++ " " ++ seed) gl)).flatten)),
       ("Prepositions",
        dedupe ((["for", "with", "without", "to", "near", "in", "on", "about", "versus",
          "vs"].flatMap (fun p => [f (seed ++ " " ++ p) gl, f (p ++ " " ++ seed) gl])).flatten)),
       ("Comparisons",
        dedupe ((["vs", "versus", "alternative", "alternatives", "compare", "comparison",
          "like"].flatMap (fun c => [f (seed ++ " " ++ c) gl,
            f (c ++ " " ++ seed) gl])).flatten))] := by
  constructor
  · rw [expand_eq]; rfl
  · rw [expand_eq]; rfl

/-- C3 counterexample: with a client that counts its invocations, a single
`expand_keyword` call performs 44 `SuggestionClient` calls — the claimed
bound of 37 is violated (the claim's own decomposition 10 + 20 + 14 sums
to 44, not 37). -/
theorem expand_keyword_calls_exceed_37 :
    (expand_keyword (countClient (fun _ _ => [])) "x" "IN" 0).2 = 44 ∧
    ¬ (expand_keyword (countClient (fun _ _ => [])) "x" "IN" 0).2 ≤ 37 := by
  constructor
  · rfl
  · decide

/-- C3 amended: for every seed and region, one `expand_keyword` invocation
triggers exactly 44 `SuggestionClient` calls, composed as 10 question-variant
calls plus 20 preposition-variant calls plus 14 comparison-variant calls. -/
theorem expand_keyword_issues_44_calls (f : String → String → List String)
    (seed gl : String) (n : Nat) :
    (expand_keyword (countClient f) seed gl n).2 = n + 44 ∧
    (questionQueries seed).length = 10 ∧
    (prepositionQueries seed).length = 20 ∧
    (comparisonQueries seed).length = 14 :=
  ⟨expand_keyword_countClient f seed gl n, rfl, rfl, rfl⟩

/-- C4 counterexample: the claim that a malformed/unexpected response shape
always yields an empty sequence is false. For the successful response
`[null, 42]` the code returns `r.json()[1] = 42` verbatim — a number, not an
empty sequence — and for the successful response `"hello"` Python string
indexing succeeds and the code returns the one-character string `"e"`. -/
theorem google_autocomplete_malformed_not_empty :
    google_autocomplete (FetchResult.response 200 (Json.arr [Json.null, Json.num 42])) =
      Json.num 42 ∧
    google_autocomplete (FetchResult.response 200 (Json.arr [Json.null, Json.num 42])) ≠
      Json.arr [] ∧
    google_autocomplete (FetchResult.response 200 (Json.str "hello")) = Json.str "e" ∧
    google_autocomplete (FetchResult.response 200 (Json.str "hello")) ≠ Json.arr [] :=
  ⟨rfl, fun h => Json.noConfusion h, rfl, fun h => Json.noConfusion h⟩

/-- C4 amended: `google_autocomplete` returns the value at index 1 of the
decoded JSON response verbatim when the request succeeds and the indexing
succeeds — with no trimming, no case normalization, and also no shape
validation, so a non-sequence-of-strings element is returned as is (in
particular, when index 1 is a sequence of strings it is returned verbatim).
It returns an empty sequence exactly on the raising paths: transport error,
timeout, non-success status (400-599, the `raise_for_status` range), a body
that is not valid JSON, or a body on which indexing at 1 raises; being a
total function, it never raises to its caller. -/
theorem google_autocomplete_verbatim_or_empty :
    (google_autocomplete FetchResult.transportError = Json.arr [] ∧
     google_autocomplete FetchResult.timeout = Json.arr [] ∧
     google_autocomplete FetchResult.invalidJson = Json.arr []) ∧
    (∀ (status : Nat) (body : Json), 400 ≤ status → status ≤ 599 →
      google_autocomplete (FetchResult.response status body) = Json.arr []) ∧
    (∀ (status : Nat) (body : Json), pyIndex1 body = none →
      google_autocomplete (FetchResult.response status body) = Json.arr []) ∧
    (∀ (status : Nat) (body v : Json), status < 400 → pyIndex1 body = some v →
      google_autocomplete (FetchResult.response status body) = v) ∧
    (∀ (status : Nat) (j : Json) (ss : List String) (rest : List Json),
      status < 400 →
      google_autocomplete
        (FetchResult.response status (Json.arr (j :: Json.arr (ss.map Json.str) :: rest))) =
        Json.arr (ss.map Json.str)) := by
  refine ⟨⟨rfl, rfl, rfl⟩, ?_, ?_, ?_, ?_⟩
  · intro status body h1 h2
    simp only [google_autocomplete]
    rw [if_pos ⟨h1, h2⟩]
  · intro status body hnone
    simp only [google_autocomplete, hnone]
    split <;> rfl
  · intro status body v hlt hsome
    simp only [google_autocomplete, hsome]
    rw [if_neg (by omega : ¬ (400 ≤ status ∧ status ≤ 599))]
  · intro status j ss rest hlt
    simp only [google_autocomplete]
    rw [if_neg (by omega : ¬ (400 ≤ status ∧ status ≤ 599))]
    rfl

/-- C5: `expand_keyword` has no failure path of its own: a call whose client
returns `[]` simply contributes nothing, and when the client returns `[]` for
every query the result is the mapping of three empty buckets — while all 44
variant queries are still issued (no failure halts the remaining queries). -/
theorem expand_failure_resilience (f : String → String → List String)
    (seed gl : String) (h : ∀ q g, f q g = []) :
    expand f seed gl = [("Questions", []), ("Prepositions", []), ("Comparisons", [])] ∧
    (expand_keyword (countClient f) seed gl 0).2 = 44 := by
  constructor
  · rw [expand_eq]
    have hq : rawQuestions f seed gl = [] := by
      simp [rawQuestions, questionQueries, QUESTION_WORDS, h]
    have hp : rawPrepositions f seed gl = [] := by
      simp [rawPrepositions, prepositionQueries, PREPOSITIONS, h]
    have hc : rawComparisons f seed gl = [] := by
      simp [rawComparisons, comparisonQueries, COMPARISONS, h]
    rw [hq, hp, hc]
    rfl
  · exact expand_keyword_countClient f seed gl 0

/-- C5 witness: the all-empty client stub at seed "x", region "IN". -/
theorem expand_failure_resilience_witness :
    expand (fun _ _ => []) "x" "IN" =
      [("Questions", []), ("Prepositions", []), ("Comparisons", [])] ∧
    (expand_keyword (countClient (fun _ _ => [])) "x" "IN" 0).2 = 44 :=
  expand_failure_resilience (fun _ _ => []) "x" "IN" (fun _ _ => rfl)

/-- C6: `expand_keyword` is deterministic: when the client's output for each
(query, region) pair does not depend on its state, two invocations with the
same seed and region — started from any two states — return identical
mappings. -/
theorem expand_keyword_deterministic {σ : Type} (c : Client σ) (seed gl : String)
    (s1 s2 : σ)
    (h : ∀ (q g : String) (t1 t2 : σ), (c.fetch q g t1).1 = (c.fetch q g t2).1) :
    (expand_keyword c seed gl s1).1 = (expand_keyword c seed gl s2).1 := by
  have h1 := fetchAll_fst_state_independent c gl h (questionQueries seed)
  have h2 := fetchAll_fst_state_independent c gl h (prepositionQueries seed)
  have h3 := fetchAll_fst_state_independent c gl h (comparisonQueries seed)
  simp only [expand_keyword]
  rw [h1 s1 s2, h2 _ _, h3 _ _]

/-- A client whose answers are fixed per query but whose state changes: it
answers `[q]` for query `q` and counts calls in its state. -/
def detClient : Client Nat := ⟨fun q _ n => ([q], n + 1)⟩

/-- C6 witness: the fixed-output client at seed "x", region "IN", run from
states 0 and 7. -/
theorem expand_keyword_deterministic_witness :
    (expand_keyword detClient "x" "IN" 0).1 = (expand_keyword detClient "x" "IN" 7).1 :=
  expand_keyword_deterministic detClient "x" "IN" 0 7 (fun _ _ _ _ => rfl)

/-- C7: deduplication is per bucket only: a suggestion returned both by a
question-variant query and by a preposition-variant query occurs (up to the
kept casing) exactly once in the Questions bucket and exactly once in the
Prepositions bucket. -/
theorem cross_bucket_independence (f : String → String → List String)
    (seed gl s : String)
    (hq : s ∈ rawQuestions f seed gl) (hp : s ∈ rawPrepositions f seed gl) :
    (bucketOf (expand f seed gl) "Questions").countP
      (fun x => lower x == lower s) = 1 ∧
    (bucketOf (expand f seed gl) "Prepositions").countP
      (fun x => lower x == lower s) = 1 := by
  constructor
  · rw [bucketOf_expand_questions]
    obtain ⟨t, htm, hte⟩ := exists_lower_mem_dedupe hq
    rw [← hte]
    exact countP_eq_one_of_pairwise _ (dedupeAux_pairwise _ _) t htm
  · rw [bucketOf_expand_prepositions]
    obtain ⟨t, htm, hte⟩ := exists_lower_mem_dedupe hp
    rw [← hte]
    exact countP_eq_one_of_pairwise _ (dedupeAux_pairwise _ _) t htm

/-- A stub returning the same one suggestion for every query. -/
def dupStub : String → String → List String := fun _ _ => ["Dup"]

/-- C7 witness: the suggestion "Dup" is returned by every query, so by both a
question query and a preposition query; it appears once in each bucket. -/
theorem cross_bucket_independence_witness :
    (bucketOf (expand dupStub "x" "IN") "Questions").countP
      (fun x => lower x == lower "Dup") = 1 ∧
    (bucketOf (expand dupStub "x" "IN") "Prepositions").countP
      (fun x => lower x == lower "Dup") = 1 :=
  cross_bucket_independence dupStub "x" "IN" "Dup" (by decide) (by decide)

/-- C8: when every line of the seed text strips to the empty string (so the
seed list is empty after trimming), the main block reports a validation
failure (`none`, the `st.error` + `st.stop` path) and the client is never
invoked: the state comes back untouched, so no expansion call and no query
was issued. -/
theorem empty_seed_list_validation {σ : Type} (c : Client σ)
    (seedsText gl : String) (st : σ)
    (h : ∀ line ∈ pySplitlines seedsText, pyStrip line = "") :
    mainLogic c seedsText gl st = (none, st) := by
  have hsl : seed_list seedsText = [] := by
    unfold seed_list
    have hf : ((pySplitlines seedsText).map pyStrip).filter (fun s => s ≠ "") = [] := by
      rw [List.filter_eq_nil_iff]
      intro a ha
      obtain ⟨line, hline, rfl⟩ := List.mem_map.mp ha
      simp [h line hline]
    rw [hf]
    rfl
  simp only [mainLogic, hsl]
  rfl

/-- C8 witness: a seed text of one blank line and one tab line. -/
theorem empty_seed_list_validation_witness :
    mainLogic (countClient (fun _ _ => [])) "  \n\t" "IN" 0 = (none, 0) :=
  empty_seed_list_validation (countClient (fun _ _ => [])) "  \n\t" "IN" 0 (by decide)

/-- C9: each returned bucket is a subsequence (`List.Sublist`: same elements
verbatim, same relative order) of the concatenation, in variant-generation
order, of the client results for that bucket's queries — nothing fabricated,
rewritten, trimmed, re-cased or reordered — and what is dropped is only
case-insensitive duplicates: every raw suggestion still has a
case-insensitive representative in its bucket. -/
theorem expand_never_fabricates (f : String → String → List String) (seed gl : String) :
    List.Sublist (bucketOf (expand f seed gl) "Questions") (rawQuestions f seed gl) ∧
    List.Sublist (bucketOf (expand f seed gl) "Prepositions") (rawPrepositions f seed gl) ∧
    List.Sublist (bucketOf (expand f seed gl) "Comparisons") (rawComparisons f seed gl) ∧
    (∀ s ∈ rawQuestions f seed gl,
      ∃ t ∈ bucketOf (expand f seed gl) "Questions", lower t = lower s) ∧
    (∀ s ∈ rawPrepositions f seed gl,
      ∃ t ∈ bucketOf (expand f seed gl) "Prepositions", lower t = lower s) ∧
    (∀ s ∈ rawComparisons f seed gl,
      ∃ t ∈ bucketOf (expand f seed gl) "Comparisons", lower t = lower s) := by
  rw [bucketOf_expand_questions, bucketOf_expand_prepositions, bucketOf_expand_comparisons]
  exact ⟨dedupeAux_sublist _ _, dedupeAux_sublist _ _, dedupeAux_sublist _ _,
    fun s hs => exists_lower_mem_dedupe hs,
    fun s hs => exists_lower_mem_dedupe hs,
    fun s hs => exists_lower_mem_dedupe hs⟩

/-- C10: the four variants `"{seed} vs"`, `"vs {seed}"`, `"{seed} versus"`,
`"versus {seed}"` each occur among both the preposition queries and the
comparison queries (so each is issued twice, once feeding each bucket), and a
suggestion the client returns for any of them lands (case-insensitively) in
both the Prepositions bucket and the Comparisons bucket. -/
theorem vs_versus_double_queried (f : String → String → List String)
    (seed gl s : String)
    (hs : s ∈ f (seed ++ " vs") gl ∨ s ∈ f ("vs " ++ seed) gl ∨
          s ∈ f (seed ++ " versus") gl ∨ s ∈ f ("versus " ++ seed) gl) :
    ((seed ++ " vs") ∈ prepositionQueries seed ∧
     (seed ++ " vs") ∈ comparisonQueries seed ∧
     ("vs " ++ seed) ∈ prepositionQueries seed ∧
     ("vs " ++ seed) ∈ comparisonQueries seed ∧
     (seed ++ " versus") ∈ prepositionQueries seed ∧
     (seed ++ " versus") ∈ comparisonQueries seed ∧
     ("versus " ++ seed) ∈ prepositionQueries seed ∧
     ("versus " ++ seed) ∈ comparisonQueries seed) ∧
    (∃ t ∈ bucketOf (expand f seed gl) "Prepositions", lower t = lower s) ∧
    (∃ t ∈ bucketOf (expand f seed gl) "Comparisons", lower t = lower s) := by
  have eA : (" " ++ "vs" : String) = " vs" := by decide
  have eB : (" " ++ "versus" : String) = " versus" := by decide
  have evs : seed ++ " " ++ "vs" = seed ++ " vs" := by rw [String.append_assoc, eA]
  have evss : seed ++ " " ++ "versus" = seed ++ " versus" := by rw [String.append_assoc, eB]
  have hpv : (seed ++ " vs") ∈ prepositionQueries seed := by
    rw [← evs]
    exact List.mem_flatMap.mpr ⟨"vs", by simp [PREPOSITIONS], by simp⟩
  have hcv : (seed ++ " vs") ∈ comparisonQueries seed := by
    rw [← evs]
    exact List.mem_flatMap.mpr ⟨"vs", by simp [COMPARISONS], by simp⟩
  have hpv2 : ("vs " ++ seed) ∈ prepositionQueries seed :=
    List.mem_flatMap.mpr ⟨"vs", by simp [PREPOSITIONS], by simp⟩
  have hcv2 : ("vs " ++ seed) ∈ comparisonQueries seed :=
    List.mem_flatMap.mpr ⟨"vs", by simp [COMPARISONS], by simp⟩
  have hpw : (seed ++ " versus") ∈ prepositionQueries seed := by
    rw [← evss]
    exact List.mem_flatMap.mpr ⟨"versus", by simp [PREPOSITIONS], by simp⟩
  have hcw : (seed ++ " versus") ∈ comparisonQueries seed := by
    rw [← evss]
    exact List.mem_flatMap.mpr ⟨"versus", by simp [COMPARISONS], by simp⟩
  have hpw2 : ("versus " ++ seed) ∈ prepositionQueries seed :=
    List.mem_flatMap.mpr ⟨"versus", by simp [PREPOSITIONS], by simp⟩
  have hcw2 : ("versus " ++ seed) ∈ comparisonQueries seed :=
    List.mem_flatMap.mpr ⟨"versus", by simp [COMPARISONS], by simp⟩
  refine ⟨⟨hpv, hcv, hpv2, hcv2, hpw, hcw, hpw2, hcw2⟩, ?_, ?_⟩
  · rw [bucketOf_expand_prepositions]
    rcases hs with h | h | h | h
    exacts [exists_lower_mem_dedupe (mem_raw_of_mem_query hpv h),
      exists_lower_mem_dedupe (mem_raw_of_mem_query hpv2 h),
      exists_lower_mem_dedupe (mem_raw_of_mem_query hpw h),
      exists_lower_mem_dedupe (mem_raw_of_mem_query hpw2 h)]
  · rw [bucketOf_expand_comparisons]
    rcases hs with h | h | h | h
    exacts [exists_lower_mem_dedupe (mem_raw_of_mem_query hcv h),
      exists_lower_mem_dedupe (mem_raw_of_mem_query hcv2 h),
      exists_lower_mem_dedupe (mem_raw_of_mem_query hcw h),
      exists_lower_mem_dedupe (mem_raw_of_mem_query hcw2 h)]

/-- A stub answering only the query "x vs". -/
def vsStub : String → String → List String :=
  fun q _ => if q = "x vs" then ["HIT"] else []

/-- C10 witness: seed "x"; the stub answers "HIT" for the query "x vs", and
"HIT" reaches both the Prepositions and the Comparisons bucket. -/
theorem vs_versus_double_queried_witness :
    (("x" ++ " vs") ∈ prepositionQueries "x" ∧
     ("x" ++ " vs") ∈ comparisonQueries "x" ∧
     ("vs " ++ "x") ∈ prepositionQueries "x" ∧
     ("vs " ++ "x") ∈ comparisonQueries "x" ∧
     ("x" ++ " versus") ∈ prepositionQueries "x" ∧
     ("x" ++ " versus") ∈ comparisonQueries "x" ∧
     ("versus " ++ "x") ∈ prepositionQueries "x" ∧
     ("versus " ++ "x") ∈ comparisonQueries "x") ∧
    (∃ t ∈ bucketOf (expand vsStub "x" "IN") "Prepositions", lower t = lower "HIT") ∧
    (∃ t ∈ bucketOf (expand vsStub "x" "IN") "Comparisons", lower t = lower "HIT") :=
  vs_versus_double_queried vsStub "x" "IN" "HIT" (Or.inl (by decide))

end AutoKeyword
